import Mathlib

/-!
# Verification of the Nifty return-analysis core (`src/app.py`)

Shallow embedding of `analyze_nifty_data` (src/app.py, lines 32-96) and the
data it operates on.  Dates are calendar dates (year, month, day); prices and
returns are rationals (`ℚ`).  Pandas `NaN` results (the head of `pct_change`,
the mean of an empty series) are modelled with `Option`: `none` is `NaN`,
entries that `dropna` would remove are simply not produced.  This is faithful
for price series with positive closes (the only way `pct_change` of a
resampled close series can produce a `NaN` past position 0 is a `0/0`).

All timestamps of the resampled yearly series are Dec-31 stamps of their
year, so timestamp distance is monotone in year distance; the
`method='nearest'` index lookup is therefore embedded as nearest-by-year.
The wall-clock current year (`pd.Timestamp('now').year`, line 41) is passed
as an explicit parameter.
-/

namespace NiftyDash

/-- A calendar date, ordered lexicographically (year, month, day). -/
structure PDate where
  year : Int
  month : Nat
  day : Nat
deriving DecidableEq, Repr

/-- One row of the input DataFrame: the index date and the `Close` value. -/
structure PricePoint where
  date : PDate
  close : ℚ
deriving DecidableEq, Repr

/-- Lexicographic order on dates, matching pandas `DatetimeIndex` order. -/
def PDate.le (a b : PDate) : Prop :=
  a.year < b.year ∨ (a.year = b.year ∧
    (a.month < b.month ∨ (a.month = b.month ∧ a.day ≤ b.day)))

instance (a b : PDate) : Decidable (PDate.le a b) := by
  unfold PDate.le
  infer_instance

/-- The input invariant of the core: the price series is sorted ascending
by date (spec §3; pandas requires a monotone index to resample). -/
def sortedByDate (prices : List PricePoint) : Prop :=
  List.Chain' (fun p q => PDate.le p.date q.date) prices

/-- `Series.pct_change` of the daily closes: `NaN` (= `none`) at position 0
and `c_i / c_{i-1} - 1` afterwards.  This is the `Daily_Return` column
assigned into the input frame at src/app.py line 34. -/
def dailyPctChange (closes : List ℚ) : List (Option ℚ) :=
  match closes with
  | [] => []
  | c :: rest => none :: (List.zipWith (fun a b => some (b / a - 1)) (c :: rest) rest)

/-- `pct_change().dropna()` on a resampled (label, close) series: the leading
`NaN` is dropped and each surviving entry pairs the later label with
`c_i / c_{i-1} - 1` (src/app.py lines 37-38 and 43-44). -/
def retSeries {α : Type} (closes : List (α × ℚ)) : List (α × ℚ) :=
  List.zipWith (fun a b => (b.1, b.2 / a.2 - 1)) closes closes.tail

/-- Last close at or before the end of calendar year `y`
(`resample('Y').ffill()` semantics: a year's representative close is the most
recent price at or before its Dec-31 boundary; the input is sorted by date,
so that is the last point with `year ≤ y`). -/
def lastCloseUpToYear (prices : List PricePoint) (y : Int) : Option ℚ :=
  ((prices.filter (fun p => p.date.year ≤ y)).getLast?).map PricePoint.close

/-- The forward-filled year-end close of year `y`, as a total function
(default `0` is never reached for years at or after the first data year). -/
def ffcloseYear (prices : List PricePoint) (y : Int) : ℚ :=
  match lastCloseUpToYear prices y with
  | none => 0
  | some c => c

/-- First year present in the price series (the series is sorted). -/
def firstYear (prices : List PricePoint) : Int :=
  match prices with
  | [] => 0
  | p :: _ => p.date.year

/-- Last year present in the price series (the series is sorted). -/
def lastYear (prices : List PricePoint) : Int :=
  match prices.getLast? with
  | none => 0
  | some p => p.date.year

/-- The year-end close series produced by `resample('Y').ffill()`: one entry
per calendar year from the first to the last year of the data (resampling
spans the whole range; a year with no trading data is forward-filled from
the previous year). -/
def yearlyCloses (prices : List PricePoint) : List (Int × ℚ) :=
  match prices with
  | [] => []
  | _ =>
    (List.range ((lastYear prices - firstYear prices).toNat + 1)).filterMap
      (fun (i : Nat) =>
        let y := firstYear prices + (i : Int)
        (lastCloseUpToYear prices y).map (fun c => (y, c)))

/-- The Yearly Return Series (src/app.py lines 37-38):
`resample('Y').ffill().pct_change()` then `dropna()`, kept as
(year of the Dec-31 stamp, return) pairs. -/
def yearlyReturns (prices : List PricePoint) : List (Int × ℚ) :=
  retSeries (yearlyCloses prices)

/-- Month-end close series of the rows whose index year equals the current
year (src/app.py lines 41-43): filter to the current year, then
`resample('M').ffill()` over the months spanned by that slice. -/
def monthlyClosesCurrentYear (prices : List PricePoint) (cy : Int) : List (Nat × ℚ) :=
  let cur := prices.filter (fun p => p.date.year = cy)
  match cur with
  | [] => []
  | p :: _ =>
    let firstM := p.date.month
    let lastM := match cur.getLast? with
      | none => firstM
      | some q => q.date.month
    (List.range (lastM + 1 - firstM)).filterMap
      (fun i =>
        let m := firstM + i
        (((cur.filter (fun q => q.date.month ≤ m)).getLast?).map
          (fun q => (m, q.close))))

/-- The current-year Monthly Return Series (src/app.py lines 43-44). -/
def monthlyReturnsCurrentYear (prices : List PricePoint) (cy : Int) : List (Nat × ℚ) :=
  retSeries (monthlyClosesCurrentYear prices cy)

/-- `yearly_returns.mean()` (src/app.py line 47): pandas returns `NaN`
(modelled `none`) on an empty series, and the arithmetic mean otherwise;
the division by the length only happens when the length is positive. -/
def meanOf (ys : List (Int × ℚ)) : Option ℚ :=
  match ys with
  | [] => none
  | _ => some ((ys.map Prod.snd).sum / ys.length)

/-- State of the slump scan: `some (s, p)` means a run of non-positive
years started at year `s` and the previously seen year is `p`
(`start_year` and `index[i-1].year` in src/app.py lines 52-63). -/
def slumpAux : Option (Int × Int) → List (Int × ℚ) → List (Int × Int)
  | none, [] => []
  | some se, [] => [se]
  | none, (y, r) :: rest =>
    if r ≤ 0 then slumpAux (some (y, y)) rest else slumpAux none rest
  | some (s, p), (y, r) :: rest =>
    if r ≤ 0 then slumpAux (some (s, y)) rest
    else (s, p) :: slumpAux none rest

/-- The slump-detection scan (src/app.py lines 49-63): maximal runs of
consecutive entries with return ≤ 0, emitted as (start_year, end_year). -/
def slumpPeriods (ys : List (Int × ℚ)) : List (Int × Int) :=
  slumpAux none ys

/-- Nearest-entry search: returns the position and the year-distance of the
entry nearest to the target year, preferring the earliest position on ties. -/
def nearestAux (t : Int) : List (Int × ℚ) → Option (Nat × Int)
  | [] => none
  | e :: rest =>
    match nearestAux t rest with
    | none => some (0, |e.1 - t|)
    | some (j, d) => if |e.1 - t| ≤ d then some (0, |e.1 - t|) else some (j + 1, d)

/-- `yearly_returns.index.get_loc(ts, method='nearest')` (src/app.py
line 74): the position of the index entry nearest to the Dec-31 stamp of
the target year.  All entries of the resampled index are Dec-31 stamps, so
timestamp distance is monotone in year distance. -/
def nearestIdx (ys : List (Int × ℚ)) (t : Int) : Option Nat :=
  (nearestAux t ys).map Prod.fst

/-- Whether the nearest-lookup of target year `t` lands on an entry whose
year equals `t` (the guard at src/app.py line 77). -/
def lookupOk (ys : List (Int × ℚ)) (t : Int) : Bool :=
  match nearestIdx ys t with
  | none => false
  | some i =>
    match ys[i]? with
    | none => false
    | some e => decide (e.1 = t)

/-- Whether one slump increments `count_next_year_exceeds` (src/app.py
lines 70-82): locate `end_year` by nearest lookup, require the found entry's
year to equal `end_year`, then require a following entry whose return
exceeds the mean. -/
def nextContrib (ys : List (Int × ℚ)) (m : ℚ) (se : Int × Int) : Bool :=
  match nearestIdx ys se.2 with
  | none => false
  | some i =>
    match ys[i]? with
    | none => false
    | some e =>
      if e.1 = se.2 then
        match ys[i + 1]? with
        | some e1 => decide (e1.2 > m)
        | none => false
      else false

/-- Whether one slump increments `count_next_two_years_exceeds` (src/app.py
lines 84-88): both the first and second entries after `end_year`'s entry
must exist and exceed the mean. -/
def twoContrib (ys : List (Int × ℚ)) (m : ℚ) (se : Int × Int) : Bool :=
  match nearestIdx ys se.2 with
  | none => false
  | some i =>
    match ys[i]? with
    | none => false
    | some e =>
      if e.1 = se.2 then
        match ys[i + 1]?, ys[i + 2]? with
        | some e1, some e2 => decide (e1.2 > m ∧ e2.2 > m)
        | _, _ => false
      else false

/-- `probability_next_year_exceeds` (src/app.py line 93): count over the
full slump list divided by the *total* slump count, 0 with no slumps. -/
def probNextOf (ys : List (Int × ℚ)) (m : ℚ) (slumps : List (Int × Int)) : ℚ :=
  if slumps.length > 0 then
    (slumps.countP (fun se => nextContrib ys m se) : ℚ) / slumps.length
  else 0

/-- `probability_next_two_years_exceeds` (src/app.py line 94). -/
def probTwoOf (ys : List (Int × ℚ)) (m : ℚ) (slumps : List (Int × Int)) : ℚ :=
  if slumps.length > 0 then
    (slumps.countP (fun se => twoContrib ys m se) : ℚ) / slumps.length
  else 0

/-- The mean value used in the comparisons (`mean_yearly_return.item()`,
src/app.py lines 81 and 87); the loop only runs when a slump exists, hence
when the series is nonempty, so the `NaN` case is never compared — `0`
here is an arbitrary total-function default. -/
def meanVal (ys : List (Int × ℚ)) : ℚ :=
  match meanOf ys with
  | none => 0
  | some m => m

/-- The five outputs of one analysis invocation (src/app.py line 96). -/
structure Outputs where
  yearly : List (Int × ℚ)
  monthly : List (Nat × ℚ)
  probNext : ℚ
  probTwo : ℚ
  mean : Option ℚ
deriving DecidableEq, Repr

/-- The input DataFrame: its date index with the `Close` column, and the
`Daily_Return` column when present. -/
structure Frame where
  prices : List PricePoint
  dailyReturn : Option (List (Option ℚ))
deriving DecidableEq, Repr

/-- `analyze_nifty_data` (src/app.py lines 32-96).  It returns the five
outputs together with the state of the caller's DataFrame after the call:
line 34 assigns a `Daily_Return` column into the input frame (an in-place
mutation), which the rest of the function never reads. -/
def analyze_nifty_data (f : Frame) (currentYear : Int) : Frame × Outputs :=
  let mutated : Frame :=
    { prices := f.prices
      dailyReturn := some (dailyPctChange (f.prices.map PricePoint.close)) }
  let ys := yearlyReturns f.prices
  let slumps := slumpPeriods ys
  let m := meanVal ys
  (mutated,
    { yearly := ys
      monthly := monthlyReturnsCurrentYear f.prices currentYear
      probNext := probNextOf ys m slumps
      probTwo := probTwoOf ys m slumps
      mean := meanOf ys })

/-- The series entry years are the consecutive integers `y0, y0+1, ...`
(shape of every resampled yearly index: one Dec-31 stamp per year). -/
def consecFrom : Int → List (Int × ℚ) → Prop
  | _, [] => True
  | y, e :: rest => e.1 = y ∧ consecFrom (y + 1) rest

instance instDecConsecFrom : (y : Int) → (l : List (Int × ℚ)) → Decidable (consecFrom y l)
  | _, [] => isTrue trivial
  | y, e :: rest =>
    have : Decidable (consecFrom (y + 1) rest) := instDecConsecFrom (y + 1) rest
    inferInstanceAs (Decidable (e.1 = y ∧ consecFrom (y + 1) rest))

/-- Year `y` carries a non-positive return somewhere in the series. -/
def negIn (ys : List (Int × ℚ)) (y : Int) : Prop :=
  ∃ r : ℚ, (y, r) ∈ ys ∧ r ≤ 0

/-- The number of distinct years present in the raw price data (the claim
C8 reading of "number of distinct years covered"). -/
def distinctYearCount (prices : List PricePoint) : Nat :=
  ((prices.map (fun p => p.date.year)).dedup).length

/-- Formalisation of the claim C4 / spec §4.4 wording "skip this slump
entirely (excluded from both numerator and denominator)": drop the slumps
whose nearest lookup mismatches before forming the next-year ratio.  This
definition follows the spec's words, for comparison with `probNextOf`,
which follows the code. -/
def probNextOfSkipPolicy (ys : List (Int × ℚ)) (m : ℚ) (slumps : List (Int × Int)) : ℚ :=
  let kept := slumps.filter (fun se => lookupOk ys se.2)
  if kept.length > 0 then
    (kept.countP (fun se => nextContrib ys m se) : ℚ) / kept.length
  else 0

/-- The scenario price series of claim C1: closes [100,90,95,80,120,130]
at one trading day in each of the years 2018..2023. -/
def scenPrices : List PricePoint :=
  [⟨⟨2018, 6, 15⟩, 100⟩, ⟨⟨2019, 6, 14⟩, 90⟩, ⟨⟨2020, 6, 12⟩, 95⟩,
   ⟨⟨2021, 6, 15⟩, 80⟩, ⟨⟨2022, 6, 15⟩, 120⟩, ⟨⟨2023, 6, 15⟩, 130⟩]

/-- Concrete yearly series for the C4 defensive-policy analysis: years
1..3, a slump at year 1, followed by two above-mean years. -/
def ysFour : List (Int × ℚ) := [(1, -1), (2, 10), (3, 10)]

/-- A slump list containing one valid slump and one slump whose end year 9
has no entry in `ysFour` (the nearest entry is year 3 ≠ 9). -/
def slFour : List (Int × Int) := [(1, 1), (9, 9)]

/-- Price series with a gap year (2018 and 2020, no 2019 data): the
resampled yearly index spans 2018-2020, so two returns are produced while
only two distinct years occur in the data. -/
def gapPrices : List PricePoint :=
  [⟨⟨2018, 6, 1⟩, 100⟩, ⟨⟨2020, 6, 1⟩, 110⟩]

/-- Two-point price series used to exhibit the in-place mutation of the
input frame by `analyze_nifty_data` (src/app.py line 34). -/
def mutPrices : List PricePoint :=
  [⟨⟨2024, 1, 2⟩, 100⟩, ⟨⟨2024, 1, 3⟩, 110⟩]

end NiftyDash

namespace NiftyDash

/-! ## Supporting lemmas -/

/-- A two-years contribution implies a next-year contribution: the
two-years branch (src/app.py line 87) re-checks the next-year comparison. -/
lemma twoContrib_imp_nextContrib (ys : List (Int × ℚ)) (m : ℚ) (se : Int × Int) :
    twoContrib ys m se = true → nextContrib ys m se = true := by
  unfold twoContrib nextContrib
  cases hn : nearestIdx ys se.2 with
  | none => simp
  | some i =>
    cases he : ys[i]? with
    | none => simp [he]
    | some e =>
      cases h1 : ys[i + 1]? with
      | none => cases h2 : ys[i + 2]? <;> simp [he, h1, h2]
      | some e1 =>
        cases h2 : ys[i + 2]? with
        | none => simp [he, h1, h2]
        | some e2 =>
          by_cases hy : e.1 = se.2 <;> simp [he, h1, h2, hy]
          intro ha _
          exact ha

/-- The count/total ratio is always within [0, 1]. -/
lemma probOf_bounds (slumps : List (Int × Int)) (c : (Int × Int) → Bool) :
    0 ≤ (if slumps.length > 0 then
        ((slumps.countP c : Nat) : ℚ) / (slumps.length : ℚ) else 0) ∧
    (if slumps.length > 0 then
        ((slumps.countP c : Nat) : ℚ) / (slumps.length : ℚ) else 0) ≤ 1 := by
  split
  · rename_i h
    constructor
    · positivity
    · rw [div_le_one (by exact_mod_cast h)]
      exact_mod_cast List.countP_le_length c
  · norm_num

/-- Same denominator, pointwise smaller numerator. -/
lemma probTwoOf_le_probNextOf (ys : List (Int × ℚ)) (m : ℚ) (slumps : List (Int × Int)) :
    probTwoOf ys m slumps ≤ probNextOf ys m slumps := by
  unfold probTwoOf probNextOf
  split
  · rename_i h
    rw [div_le_div_iff_of_pos_right (by exact_mod_cast h)]
    exact_mod_cast List.countP_mono_left
      (fun se _ hse => twoContrib_imp_nextContrib ys m se hse)
  · exact le_refl 0

/-- A price series of one point resamples to a single yearly period, whose
only return is the dropped `NaN`. -/
lemma yearlyReturns_single (pt : PricePoint) : yearlyReturns [pt] = [] := by
  simp [yearlyReturns, yearlyCloses, lastYear, firstYear, lastCloseUpToYear, retSeries,
    show List.range 1 = [0] from rfl, List.filterMap_cons]

/-- A price series of one point yields at most one monthly period, hence an
empty monthly return series. -/
lemma monthlyReturns_single (pt : PricePoint) (cy : Int) :
    monthlyReturnsCurrentYear [pt] cy = [] := by
  by_cases h : pt.date.year = cy
  · simp [monthlyReturnsCurrentYear, monthlyClosesCurrentYear, h, retSeries,
      show List.range 1 = [0] from rfl, List.filterMap_cons]
  · simp [monthlyReturnsCurrentYear, monthlyClosesCurrentYear, h, retSeries]

/-! ## Claim theorems -/

/-- C1: on the Price Series with yearly closes [100,90,95,80,120,130] at
years 2018..2023 and current year 2024, the analysis produces exactly the
five yearly returns −1/10 (−10%), 1/18 (≈+5.6%), −3/19 (≈−15.8%),
1/2 (+50%), 1/12 (≈+8.3%), detects exactly the two one-year slumps
(2019,2019) and (2021,2021), and returns probability_next_year = 1/2 and
probability_next_two_years = 1/2. -/
theorem C1_scenario :
    (analyze_nifty_data ⟨scenPrices, none⟩ 2024).2.yearly =
      [(2019, -1/10), (2020, 1/18), (2021, -3/19), (2022, 1/2), (2023, 1/12)] ∧
    slumpPeriods (analyze_nifty_data ⟨scenPrices, none⟩ 2024).2.yearly =
      [(2019, 2019), (2021, 2021)] ∧
    (analyze_nifty_data ⟨scenPrices, none⟩ 2024).2.probNext = 1/2 ∧
    (analyze_nifty_data ⟨scenPrices, none⟩ 2024).2.probTwo = 1/2 := by
  have hc : yearlyCloses scenPrices =
      [(2018, 100), (2019, 90), (2020, 95), (2021, 80), (2022, 120), (2023, 130)] := by
    decide
  have hys : yearlyReturns scenPrices =
      [(2019, -1/10), (2020, 1/18), (2021, -3/19), (2022, 1/2), (2023, 1/12)] := by
    rw [yearlyReturns, hc]
    norm_num [retSeries]
  have hsl : slumpPeriods
      [(2019, -1/10), (2020, 1/18), (2021, -3/19), (2022, 1/2), (2023, 1/12)] =
      [(2019, 2019), (2021, 2021)] := by
    norm_num [slumpPeriods, slumpAux]
  have hm : meanVal
      [(2019, -1/10), (2020, 1/18), (2021, -3/19), (2022, 1/2), (2023, 1/12)] =
      1303/17100 := by
    norm_num [meanVal, meanOf]
  simp only [analyze_nifty_data]
  refine ⟨hys, ?_, ?_, ?_⟩
  · rw [hys]
    exact hsl
  · rw [hys, hsl, hm]
    norm_num [probNextOf, nextContrib, nearestIdx, nearestAux, List.countP, List.countP.go]
  · rw [hys, hsl, hm]
    norm_num [probTwoOf, twoContrib, nearestIdx, nearestAux, List.countP, List.countP.go]

/-- C5 counterexample: the claim says the mean of an empty Yearly Return
Series is zero; the code's `yearly_returns.mean()` on the empty series
produced by an empty Price Series is pandas `NaN` (modelled `none`),
not 0. -/
theorem C5_counterexample :
    ¬ ((analyze_nifty_data ⟨[], none⟩ 2024).2.mean = some 0) := by
  decide

/-- C5 (amended): when the Yearly Return Series is empty the analysis
returns the `NaN` no-data marker (`none`), never raising; on a nonempty
series the mean is the sum divided by the (positive) length, so no division
by zero ever occurs. -/
theorem C5_mean_amended (cy : Int) (ys : List (Int × ℚ)) (h : ys ≠ []) :
    (analyze_nifty_data ⟨[], none⟩ cy).2.mean = none ∧
    meanOf ys = some ((ys.map Prod.snd).sum / ys.length) ∧
    0 < ((ys.length : Nat) : ℚ) := by
  refine ⟨rfl, ?_, ?_⟩
  · cases ys with
    | nil => exact absurd rfl h
    | cons a l => rfl
  · have := List.length_pos.mpr h
    exact_mod_cast this

/-- Witness for C5 (amended) at the one-entry series [(2019, 2)]. -/
theorem C5_mean_amended_witness :
    meanOf [((2019 : Int), (2 : ℚ))] =
      some (([((2019 : Int), (2 : ℚ))].map Prod.snd).sum / [((2019 : Int), (2 : ℚ))].length) :=
  (C5_mean_amended 2024 [((2019 : Int), (2 : ℚ))] (List.cons_ne_nil _ _)).2.1

/-- C6: both probabilities lie in [0, 1] and the two-year probability never
exceeds the one-year probability, for every input frame and current year. -/
theorem C6_prob_bounds (f : Frame) (cy : Int) :
    0 ≤ (analyze_nifty_data f cy).2.probNext ∧
    (analyze_nifty_data f cy).2.probNext ≤ 1 ∧
    0 ≤ (analyze_nifty_data f cy).2.probTwo ∧
    (analyze_nifty_data f cy).2.probTwo ≤ 1 ∧
    (analyze_nifty_data f cy).2.probTwo ≤ (analyze_nifty_data f cy).2.probNext := by
  have hb1 := probOf_bounds (slumpPeriods (yearlyReturns f.prices))
    (fun se => nextContrib (yearlyReturns f.prices) (meanVal (yearlyReturns f.prices)) se)
  have hb2 := probOf_bounds (slumpPeriods (yearlyReturns f.prices))
    (fun se => twoContrib (yearlyReturns f.prices) (meanVal (yearlyReturns f.prices)) se)
  exact ⟨hb1.1, hb1.2, hb2.1, hb2.2,
    probTwoOf_le_probNextOf (yearlyReturns f.prices) (meanVal (yearlyReturns f.prices))
      (slumpPeriods (yearlyReturns f.prices))⟩

/-- C7: an empty Price Series and a single-close Price Series both produce
empty yearly and monthly Return Series, zero probabilities and the `NaN`
mean; every code path is total (no exception). -/
theorem C7_short_input (cy : Int) (pt : PricePoint) :
    (analyze_nifty_data ⟨[], none⟩ cy).2 = ⟨[], [], 0, 0, none⟩ ∧
    (analyze_nifty_data ⟨[pt], none⟩ cy).2 = ⟨[], [], 0, 0, none⟩ := by
  constructor
  · rfl
  · simp only [analyze_nifty_data]
    rw [yearlyReturns_single, monthlyReturns_single]
    rfl

/-- C9 (code bug): `analyze_nifty_data` mutates its input frame — line 34
assigns a `Daily_Return` column into the caller's DataFrame (a column the
function never reads afterwards), so the input is *not* unchanged after the
call; here the frame gains a `Daily_Return` column [NaN, 10%]. -/
theorem C9_mutation_bug :
    (analyze_nifty_data ⟨mutPrices, none⟩ 2024).1 ≠ ⟨mutPrices, none⟩ ∧
    (analyze_nifty_data ⟨mutPrices, none⟩ 2024).1.dailyReturn =
      some [none, some (1/10)] := by
  constructor
  · intro h
    have h2 := congrArg Frame.dailyReturn h
    simp [analyze_nifty_data] at h2
  · show some (dailyPctChange (mutPrices.map PricePoint.close)) = _
    norm_num [dailyPctChange, mutPrices]

/-- C10: the analysis is deterministic in the Price Series and current
year: a second invocation on the frame as mutated by a first invocation
returns identical outputs, and any two frames with the same Price Series
give identical outputs (the `Daily_Return` column is never read). -/
theorem C10_deterministic (f : Frame) (cy : Int) :
    (analyze_nifty_data ((analyze_nifty_data f cy).1) cy).2 = (analyze_nifty_data f cy).2 ∧
    ∀ g : Frame, g.prices = f.prices →
      (analyze_nifty_data g cy).2 = (analyze_nifty_data f cy).2 := by
  refine ⟨rfl, ?_⟩
  intro g hg
  cases f with
  | mk fp fd =>
    cases g with
    | mk gp gd =>
      cases hg
      rfl

/-- Witness for C10 at two frames sharing an empty Price Series. -/
theorem C10_deterministic_witness :
    (analyze_nifty_data ⟨[], some []⟩ 2024).2 = (analyze_nifty_data ⟨[], none⟩ 2024).2 :=
  (C10_deterministic ⟨[], none⟩ 2024).2 ⟨[], some []⟩ rfl

/-- C8 counterexample: on the sorted two-point series with data in 2018 and
2020 only, the resampled Yearly Return Series has two entries (2019 and
2020, the gap year forward-filled) while the data covers two distinct
years, so length ≠ distinct years − 1. -/
theorem C8_counterexample :
    sortedByDate gapPrices ∧
    distinctYearCount gapPrices = 2 ∧
    (yearlyReturns gapPrices).length = 2 ∧
    (yearlyReturns gapPrices).length ≠ distinctYearCount gapPrices - 1 := by
  refine ⟨?_, by decide, by decide, by decide⟩
  simp [sortedByDate, gapPrices, PDate.le]

/-- C4 counterexample: with the yearly series `ysFour` (years 1..3) and the
slump list `slFour` containing a slump ending in year 9 (nearest entry is
year 3 ≠ 9, so the lookup mismatches), the code's ratio keeps the skipped
slump in the denominator (probability 1/2), whereas the claim's policy of
excluding it from numerator *and* denominator would give 1. -/
theorem C4_skip_counterexample :
    lookupOk ysFour 9 = false ∧
    probNextOf ysFour 0 slFour = 1/2 ∧
    probNextOfSkipPolicy ysFour 0 slFour = 1 ∧
    probNextOf ysFour 0 slFour ≠ probNextOfSkipPolicy ysFour 0 slFour := by
  have h1 : probNextOf ysFour 0 slFour = 1/2 := by
    norm_num [probNextOf, nextContrib, nearestIdx, nearestAux, List.countP, List.countP.go,
      ysFour, slFour]
  have h2 : probNextOfSkipPolicy ysFour 0 slFour = 1 := by
    norm_num [probNextOfSkipPolicy, lookupOk, nextContrib, nearestIdx, nearestAux,
      List.countP, List.countP.go, List.filter, ysFour, slFour]
  refine ⟨by decide, h1, h2, ?_⟩
  rw [h1, h2]
  norm_num

end NiftyDash

namespace NiftyDash

/-! ## The slump scan: membership and ordering invariants -/

/-- Union of the scan's output ranges, by induction over the series with the
scan state generalised: from the idle state the covered years are exactly
the non-positive years; from a running state `(s, p)` they are `[s, p]`
together with the non-positive years still to come. -/
lemma slumpAux_mem (ys : List (Int × ℚ)) : ∀ (y0 : Int), consecFrom y0 ys →
    (∀ yy : Int, (∃ se ∈ slumpAux none ys, se.1 ≤ yy ∧ yy ≤ se.2) ↔ negIn ys yy) ∧
    (∀ s p : Int, y0 = p + 1 → s ≤ p → ∀ yy : Int,
      ((∃ se ∈ slumpAux (some (s, p)) ys, se.1 ≤ yy ∧ yy ≤ se.2) ↔
        ((s ≤ yy ∧ yy ≤ p) ∨ negIn ys yy))) := by
  induction ys with
  | nil =>
    intro y0 hc
    constructor
    · intro yy
      simp [slumpAux, negIn]
    · intro s p hy0 hsp yy
      simp [slumpAux, negIn]
  | cons e rest ih =>
    intro y0 hc
    obtain ⟨he, hrest⟩ := hc
    obtain ⟨ey, er⟩ := e
    simp only at he
    subst he
    constructor
    · intro yy
      by_cases hr : er ≤ 0
      · rw [show slumpAux none ((ey, er) :: rest) = slumpAux (some (ey, ey)) rest from by
          simp [slumpAux, if_pos hr]]
        rw [(ih (ey + 1) hrest).2 ey ey rfl (le_refl ey) yy]
        constructor
        · rintro (⟨ha, hb⟩ | ⟨r', hmem, hr'⟩)
          · have hyy : yy = ey := le_antisymm hb ha
            subst hyy
            exact ⟨er, List.mem_cons_self _ _, hr⟩
          · exact ⟨r', List.mem_cons_of_mem _ hmem, hr'⟩
        · rintro ⟨r', hmem, hr'⟩
          rcases List.mem_cons.mp hmem with heq | hmem'
          · have h1 : yy = ey := (Prod.mk.injEq .. ▸ heq).1
            exact Or.inl ⟨by omega, by omega⟩
          · exact Or.inr ⟨r', hmem', hr'⟩
      · rw [show slumpAux none ((ey, er) :: rest) = slumpAux none rest from by
          simp [slumpAux, if_neg hr]]
        rw [(ih (ey + 1) hrest).1 yy]
        constructor
        · rintro ⟨r', hmem, hr'⟩
          exact ⟨r', List.mem_cons_of_mem _ hmem, hr'⟩
        · rintro ⟨r', hmem, hr'⟩
          rcases List.mem_cons.mp hmem with heq | hmem'
          · exfalso
            have h2 : r' = er := (Prod.mk.injEq .. ▸ heq).2
            exact hr (h2 ▸ hr')
          · exact ⟨r', hmem', hr'⟩
    · intro s p hy0 hsp yy
      have hey : ey = p + 1 := hy0
      by_cases hr : er ≤ 0
      · rw [show slumpAux (some (s, p)) ((ey, er) :: rest) = slumpAux (some (s, ey)) rest from by
          simp [slumpAux, if_pos hr]]
        rw [(ih (ey + 1) hrest).2 s ey rfl (by omega) yy]
        constructor
        · rintro (⟨ha, hb⟩ | ⟨r', hmem, hr'⟩)
          · by_cases hyy : yy ≤ p
            · exact Or.inl ⟨ha, hyy⟩
            · have : yy = ey := by omega
              subst this
              exact Or.inr ⟨er, List.mem_cons_self _ _, hr⟩
          · exact Or.inr ⟨r', List.mem_cons_of_mem _ hmem, hr'⟩
        · rintro (⟨ha, hb⟩ | ⟨r', hmem, hr'⟩)
          · exact Or.inl ⟨ha, by omega⟩
          · rcases List.mem_cons.mp hmem with heq | hmem'
            · have h1 : yy = ey := (Prod.mk.injEq .. ▸ heq).1
              exact Or.inl ⟨by omega, by omega⟩
            · exact Or.inr ⟨r', hmem', hr'⟩
      · rw [show slumpAux (some (s, p)) ((ey, er) :: rest) = (s, p) :: slumpAux none rest from by
          simp [slumpAux, if_neg hr]]
        have ih1 := (ih (ey + 1) hrest).1 yy
        constructor
        · rintro ⟨se, hse, ha, hb⟩
          rcases List.mem_cons.mp hse with heq | hmem'
          · subst heq
            exact Or.inl ⟨ha, hb⟩
          · obtain ⟨r', hmem'', hr'⟩ := ih1.mp ⟨se, hmem', ha, hb⟩
            exact Or.inr ⟨r', List.mem_cons_of_mem _ hmem'', hr'⟩
        · rintro (⟨ha, hb⟩ | ⟨r', hmem, hr'⟩)
          · exact ⟨(s, p), List.mem_cons_self _ _, ha, hb⟩
          · rcases List.mem_cons.mp hmem with heq | hmem'
            · exfalso
              have h2 : r' = er := (Prod.mk.injEq .. ▸ heq).2
              exact hr (h2 ▸ hr')
            · obtain ⟨se, hse, ha, hb⟩ := ih1.mpr ⟨r', hmem', hr'⟩
              exact ⟨se, List.mem_cons_of_mem _ hse, ha, hb⟩

/-- Ordering of the scan's output: emitted ranges are well-formed
(`start ≤ end`), start at or after the first remaining year, and are
pairwise separated by at least one year (`end + 1 < next start`: the scan
only closes a run at a positive entry, which lies strictly between two
emitted runs). -/
lemma slumpAux_sorted (ys : List (Int × ℚ)) : ∀ (y0 : Int), consecFrom y0 ys →
    ((List.Pairwise (fun a b : Int × Int => a.2 + 1 < b.1) (slumpAux none ys)) ∧
      ∀ se ∈ slumpAux none ys, y0 ≤ se.1 ∧ se.1 ≤ se.2) ∧
    (∀ s p : Int, y0 = p + 1 → s ≤ p →
      (List.Pairwise (fun a b : Int × Int => a.2 + 1 < b.1) (slumpAux (some (s, p)) ys)) ∧
      ∀ se ∈ slumpAux (some (s, p)) ys, s ≤ se.1 ∧ se.1 ≤ se.2) := by
  induction ys with
  | nil =>
    intro y0 hc
    refine ⟨⟨by simp [slumpAux], by simp [slumpAux]⟩, ?_⟩
    intro s p hy0 hsp
    constructor
    · simp [slumpAux]
    · intro se hse
      rcases List.mem_singleton.mp hse with heq
      subst heq
      exact ⟨le_refl _, hsp⟩
  | cons e rest ih =>
    intro y0 hc
    obtain ⟨he, hrest⟩ := hc
    obtain ⟨ey, er⟩ := e
    simp only at he
    subst he
    constructor
    · by_cases hr : er ≤ 0
      · rw [show slumpAux none ((ey, er) :: rest) = slumpAux (some (ey, ey)) rest from by
          simp [slumpAux, if_pos hr]]
        have h2 := (ih (ey + 1) hrest).2 ey ey rfl (le_refl ey)
        exact ⟨h2.1, fun se hse => ⟨(h2.2 se hse).1, (h2.2 se hse).2⟩⟩
      · rw [show slumpAux none ((ey, er) :: rest) = slumpAux none rest from by
          simp [slumpAux, if_neg hr]]
        have h1 := (ih (ey + 1) hrest).1
        exact ⟨h1.1, fun se hse => ⟨by have := (h1.2 se hse).1; omega, (h1.2 se hse).2⟩⟩
    · intro s p hy0 hsp
      have hey : ey = p + 1 := hy0
      by_cases hr : er ≤ 0
      · rw [show slumpAux (some (s, p)) ((ey, er) :: rest) = slumpAux (some (s, ey)) rest from by
          simp [slumpAux, if_pos hr]]
        exact (ih (ey + 1) hrest).2 s ey rfl (by omega)
      · rw [show slumpAux (some (s, p)) ((ey, er) :: rest) = (s, p) :: slumpAux none rest from by
          simp [slumpAux, if_neg hr]]
        have h1 := (ih (ey + 1) hrest).1
        constructor
        · refine List.pairwise_cons.mpr ⟨?_, h1.1⟩
          intro se hse
          have := (h1.2 se hse).1
          omega
        · intro se hse
          rcases List.mem_cons.mp hse with heq | hmem'
          · subst heq
            exact ⟨le_refl _, hsp⟩
          · have hb := h1.2 se hmem'
            exact ⟨by omega, hb.2⟩

end NiftyDash

namespace NiftyDash

/-- C2: for every Yearly Return Series (one entry per consecutive calendar
year, the shape every resampled yearly series has — see
`consecFrom_yearlyReturns`), the slump scan emits well-formed ranges,
pairwise disjoint, ordered ascending and separated by at least one year,
whose union over the years equals exactly the set of years with return
≤ 0; and each emitted slump is a *maximal* run: neither the year before
its start nor the year after its end is a non-positive year of the series
(so in particular no maximal run is ever split into adjacent ranges, a
single non-positive year between positive years is its own one-year slump,
and a run touching the end of the series is emitted closed at the last
non-positive year). -/
theorem C2_slump_invariants (ys : List (Int × ℚ)) (y0 : Int) (hc : consecFrom y0 ys) :
    List.Pairwise (fun a b : Int × Int => a.2 + 1 < b.1) (slumpPeriods ys) ∧
    (∀ se ∈ slumpPeriods ys, se.1 ≤ se.2) ∧
    (∀ yy : Int, (∃ se ∈ slumpPeriods ys, se.1 ≤ yy ∧ yy ≤ se.2) ↔ negIn ys yy) ∧
    (∀ se ∈ slumpPeriods ys, ¬ negIn ys (se.1 - 1) ∧ ¬ negIn ys (se.2 + 1)) := by
  have h1 := (slumpAux_sorted ys y0 hc).1
  have h2 := (slumpAux_mem ys y0 hc).1
  have hwf : ∀ se ∈ slumpPeriods ys, se.1 ≤ se.2 := fun se hse => (h1.2 se hse).2
  have hsym : Symmetric (fun a b : Int × Int => a.2 + 1 < b.1 ∨ b.2 + 1 < a.1) :=
    fun a b h => h.symm
  have hpw : List.Pairwise (fun a b : Int × Int => a.2 + 1 < b.1 ∨ b.2 + 1 < a.1)
      (slumpPeriods ys) := h1.1.imp (fun h => Or.inl h)
  refine ⟨h1.1, hwf, h2, ?_⟩
  intro se hse
  constructor
  · intro hneg
    obtain ⟨se', hse', ha, hb⟩ := (h2 (se.1 - 1)).mpr hneg
    by_cases heq : se' = se
    · subst heq
      omega
    · have hd := hpw.forall hsym hse' hse heq
      have hw1 := hwf se hse
      have hw2 := hwf se' hse'
      rcases hd with hgap | hgap <;> omega
  · intro hneg
    obtain ⟨se', hse', ha, hb⟩ := (h2 (se.2 + 1)).mpr hneg
    by_cases heq : se' = se
    · subst heq
      omega
    · have hd := hpw.forall hsym hse' hse heq
      have hw1 := hwf se hse
      have hw2 := hwf se' hse'
      rcases hd with hgap | hgap <;> omega

/-- Witness for C2 on the series [(2019, −1), (2020, 1), (2021, 0)]: a
one-year slump between positive years and a run touching the end. -/
theorem C2_slump_invariants_witness :
    List.Pairwise (fun a b : Int × Int => a.2 + 1 < b.1)
      (slumpPeriods [((2019 : Int), (-1 : ℚ)), (2020, 1), (2021, 0)]) ∧
    (∀ se ∈ slumpPeriods [((2019 : Int), (-1 : ℚ)), (2020, 1), (2021, 0)], se.1 ≤ se.2) ∧
    (∀ yy : Int, (∃ se ∈ slumpPeriods [((2019 : Int), (-1 : ℚ)), (2020, 1), (2021, 0)],
        se.1 ≤ yy ∧ yy ≤ se.2) ↔ negIn [((2019 : Int), (-1 : ℚ)), (2020, 1), (2021, 0)] yy) ∧
    (∀ se ∈ slumpPeriods [((2019 : Int), (-1 : ℚ)), (2020, 1), (2021, 0)],
      ¬ negIn [((2019 : Int), (-1 : ℚ)), (2020, 1), (2021, 0)] (se.1 - 1) ∧
      ¬ negIn [((2019 : Int), (-1 : ℚ)), (2020, 1), (2021, 0)] (se.2 + 1)) :=
  C2_slump_invariants [((2019 : Int), (-1 : ℚ)), (2020, 1), (2021, 0)] 2019 (by decide)

/-! ## The nearest-index lookup -/

/-- In a series with consecutive years, the entry at position `i` carries
year `y0 + i`. -/
lemma consecFrom_getElem? (ys : List (Int × ℚ)) : ∀ (y0 : Int), consecFrom y0 ys →
    ∀ (i : Nat) (e : Int × ℚ), ys[i]? = some e → e.1 = y0 + i := by
  induction ys with
  | nil =>
    intro y0 hc i e he
    simp at he
  | cons a rest ih =>
    intro y0 hc i e he
    obtain ⟨ha, hrest⟩ := hc
    cases i with
    | zero =>
      simp at he
      subst he
      simpa using ha
    | succ j =>
      simp only [List.getElem?_cons_succ] at he
      have := ih (y0 + 1) hrest j e he
      push_cast at this ⊢
      omega

/-- The nearest search always reports the distance of the entry it finds. -/
lemma nearestAux_spec (ys : List (Int × ℚ)) (t : Int) :
    ∀ (j : Nat) (d : Int), nearestAux t ys = some (j, d) →
      ∃ e, ys[j]? = some e ∧ d = |e.1 - t| := by
  induction ys with
  | nil =>
    intro j d h
    simp [nearestAux] at h
  | cons a rest ih =>
    intro j d h
    rw [nearestAux] at h
    split at h
    · simp at h
      obtain ⟨h1, h2⟩ := h
      subst h1
      exact ⟨a, by simp, h2.symm⟩
    · split at h
      · simp at h
        obtain ⟨h1, h2⟩ := h
        subst h1
        exact ⟨a, by simp, h2.symm⟩
      · simp at h
        obtain ⟨h1, h2⟩ := h
        subst h1
        subst h2
        rename_i j2 d2 heq hle
        obtain ⟨e, he, hd⟩ := ih j2 d2 heq
        exact ⟨e, by simpa using he, hd⟩

/-- When the target year occurs in the series the nearest search lands on
an entry with that exact year, at distance zero. -/
lemma nearestAux_zero_of_mem (ys : List (Int × ℚ)) (t : Int) :
    (∃ r : ℚ, (t, r) ∈ ys) →
    ∃ j : Nat, nearestAux t ys = some (j, 0) ∧ ∃ r : ℚ, ys[j]? = some (t, r) := by
  induction ys with
  | nil =>
    intro h
    simp at h
  | cons a rest ih =>
    intro h
    by_cases ha : a.1 = t
    · refine ⟨0, ?_, ?_⟩
      · rw [nearestAux]
        cases hr : nearestAux t rest with
        | none => simp [ha]
        | some jd =>
          obtain ⟨j', d'⟩ := jd
          obtain ⟨e, _, hd⟩ := nearestAux_spec rest t j' d' hr
          have hle : |a.1 - t| ≤ d' := by
            rw [ha, sub_self, abs_zero, hd]
            exact abs_nonneg _
          have h0 : (0 : Int) ≤ d' := hd ▸ abs_nonneg _
          simp only [ha, sub_self, abs_zero, if_pos h0]
      · exact ⟨a.2, by simp [← ha]⟩
    · obtain ⟨r, hmem⟩ := h
      rcases List.mem_cons.mp hmem with heq | hmem'
      · exact absurd (congrArg Prod.fst heq.symm) ha
      · obtain ⟨j, hj, r', hr'⟩ := ih ⟨r, hmem'⟩
        refine ⟨j + 1, ?_, ⟨r', by simpa using hr'⟩⟩
        rw [nearestAux, hj]
        have hgt : ¬ |a.1 - t| ≤ 0 := by
          intro hle
          have h0 : |a.1 - t| = 0 := le_antisymm hle (abs_nonneg _)
          have h1 : a.1 - t = 0 := abs_eq_zero.mp h0
          exact ha (by omega)
        simp only [if_neg hgt]

/-- Looking up the last year of a consecutive-year series finds the last
position. -/
lemma nearestIdx_last (ys : List (Int × ℚ)) (y0 : Int) (hc : consecFrom y0 ys)
    (e : Int × ℚ) (hl : ys.getLast? = some e) :
    nearestIdx ys e.1 = some (ys.length - 1) ∧ ys[ys.length - 1]? = some e := by
  have hmem : ∃ r : ℚ, (e.1, r) ∈ ys :=
    ⟨e.2, by simpa using List.mem_of_getLast?_eq_some hl⟩
  obtain ⟨j, hj, r', hr'⟩ := nearestAux_zero_of_mem ys e.1 hmem
  have hget : ys[ys.length - 1]? = some e := by
    rw [← List.getLast?_eq_getElem?]
    exact hl
  have h1 : e.1 = y0 + ((ys.length - 1 : Nat) : Int) :=
    consecFrom_getElem? ys y0 hc _ e hget
  have h2 : e.1 = y0 + (j : Int) := consecFrom_getElem? ys y0 hc j (e.1, r') hr'
  have hjlen : j = ys.length - 1 := by omega
  subst hjlen
  refine ⟨?_, hget⟩
  rw [nearestIdx, hj]
  rfl

/-- A slump ending at the last year of the series has no following entry,
so neither counter branch fires (src/app.py lines 79 and 85). -/
lemma contrib_last_false (ys : List (Int × ℚ)) (y0 : Int) (m : ℚ)
    (hc : consecFrom y0 ys) (se : Int × Int) (e : Int × ℚ)
    (hl : ys.getLast? = some e) (hse : se.2 = e.1) :
    nextContrib ys m se = false ∧ twoContrib ys m se = false := by
  obtain ⟨hn, hget⟩ := nearestIdx_last ys y0 hc e hl
  have hlen : ys ≠ [] := by
    intro h
    rw [h] at hl
    simp at hl
  have hpos : 0 < ys.length := List.length_pos.mpr hlen
  have hnone1 : ys[ys.length - 1 + 1]? = none := List.getElem?_eq_none (by omega)
  have hnone2 : ys[ys.length - 1 + 2]? = none := List.getElem?_eq_none (by omega)
  constructor
  · unfold nextContrib
    rw [hse]
    simp [hn, hget, hnone1]
  · unfold twoContrib
    rw [hse]
    simp [hn, hget, hnone1, hnone2]

/-- C3: whenever at least one slump was detected, both probabilities divide
by the *total* slump count, and a slump whose end year is the last entry of
the Yearly Return Series contributes `false` to both counters — it stays in
the denominator while never entering either numerator. -/
theorem C3_denominator_total (ys : List (Int × ℚ)) (y0 : Int) (m : ℚ)
    (hc : consecFrom y0 ys) (hne : slumpPeriods ys ≠ []) :
    probNextOf ys m (slumpPeriods ys) =
      (((slumpPeriods ys).countP (fun se => nextContrib ys m se) : Nat) : ℚ) /
        (((slumpPeriods ys).length : Nat) : ℚ) ∧
    probTwoOf ys m (slumpPeriods ys) =
      (((slumpPeriods ys).countP (fun se => twoContrib ys m se) : Nat) : ℚ) /
        (((slumpPeriods ys).length : Nat) : ℚ) ∧
    ∀ se ∈ slumpPeriods ys, (ys.getLast?).map Prod.fst = some se.2 →
      nextContrib ys m se = false ∧ twoContrib ys m se = false := by
  have hpos : (slumpPeriods ys).length > 0 := List.length_pos.mpr hne
  refine ⟨by unfold probNextOf; rw [if_pos hpos],
    by unfold probTwoOf; rw [if_pos hpos], ?_⟩
  intro se hse hlast
  cases hl : ys.getLast? with
  | none =>
    rw [hl] at hlast
    simp at hlast
  | some e =>
    rw [hl] at hlast
    simp at hlast
    exact contrib_last_false ys y0 m hc se e hl hlast.symm

/-- Witness for C3 on the one-entry series [(2019, −1)], whose single slump
ends at the last (only) year. -/
theorem C3_denominator_total_witness :
    probNextOf [((2019 : Int), (-1 : ℚ))] 0 (slumpPeriods [((2019 : Int), (-1 : ℚ))]) =
      (((slumpPeriods [((2019 : Int), (-1 : ℚ))]).countP
        (fun se => nextContrib [((2019 : Int), (-1 : ℚ))] 0 se) : Nat) : ℚ) /
        (((slumpPeriods [((2019 : Int), (-1 : ℚ))]).length : Nat) : ℚ) ∧
    probTwoOf [((2019 : Int), (-1 : ℚ))] 0 (slumpPeriods [((2019 : Int), (-1 : ℚ))]) =
      (((slumpPeriods [((2019 : Int), (-1 : ℚ))]).countP
        (fun se => twoContrib [((2019 : Int), (-1 : ℚ))] 0 se) : Nat) : ℚ) /
        (((slumpPeriods [((2019 : Int), (-1 : ℚ))]).length : Nat) : ℚ) ∧
    ∀ se ∈ slumpPeriods [((2019 : Int), (-1 : ℚ))],
      ([((2019 : Int), (-1 : ℚ))].getLast?).map Prod.fst = some se.2 →
      nextContrib [((2019 : Int), (-1 : ℚ))] 0 se = false ∧
      twoContrib [((2019 : Int), (-1 : ℚ))] 0 se = false :=
  C3_denominator_total [((2019 : Int), (-1 : ℚ))] 2019 0 (by decide)
    (by norm_num [slumpPeriods, slumpAux])

/-- C4 (amended): a slump whose nearest lookup lands on an entry of a
different year is excluded from both counters, but the probabilities still
divide by the length of the *full* slump list, so it is not excluded from
the denominator. -/
theorem C4_skip_amended (ys : List (Int × ℚ)) (m : ℚ) (slumps : List (Int × Int))
    (se : Int × Int) (hse : se ∈ slumps) (hmiss : lookupOk ys se.2 = false) :
    nextContrib ys m se = false ∧ twoContrib ys m se = false ∧
    probNextOf ys m slumps =
      ((slumps.countP (fun q => nextContrib ys m q) : Nat) : ℚ) /
        ((slumps.length : Nat) : ℚ) ∧
    probTwoOf ys m slumps =
      ((slumps.countP (fun q => twoContrib ys m q) : Nat) : ℚ) /
        ((slumps.length : Nat) : ℚ) := by
  have hpos : slumps.length > 0 := List.length_pos.mpr (List.ne_nil_of_mem hse)
  have hcontrib : nextContrib ys m se = false ∧ twoContrib ys m se = false := by
    unfold lookupOk at hmiss
    unfold nextContrib twoContrib
    cases hn : nearestIdx ys se.2 with
    | none => simp [hn]
    | some i =>
      cases he : ys[i]? with
      | none => simp [hn, he]
      | some e =>
        simp only [hn, he] at hmiss
        have hy : ¬ (e.1 = se.2) := by simpa using hmiss
        simp [hn, he, hy]
  exact ⟨hcontrib.1, hcontrib.2,
    by unfold probNextOf; rw [if_pos hpos],
    by unfold probTwoOf; rw [if_pos hpos]⟩

/-- Witness for C4 (amended) on `ysFour`/`slFour`, whose slump (9, 9) has
no year-9 entry. -/
theorem C4_skip_amended_witness :
    nextContrib ysFour 0 (9, 9) = false ∧ twoContrib ysFour 0 (9, 9) = false ∧
    probNextOf ysFour 0 slFour =
      ((slFour.countP (fun q => nextContrib ysFour 0 q) : Nat) : ℚ) /
        ((slFour.length : Nat) : ℚ) ∧
    probTwoOf ysFour 0 slFour =
      ((slFour.countP (fun q => twoContrib ysFour 0 q) : Nat) : ℚ) /
        ((slFour.length : Nat) : ℚ) :=
  C4_skip_amended ysFour 0 slFour (9, 9) (by decide) (by decide)

end NiftyDash

namespace NiftyDash

/-! ## Shape of the resampled yearly series -/

/-- A `filterMap` whose function always succeeds is a `map`. -/
lemma filterMap_eq_map_of_some {α β : Type} (f : α → Option β) (g : α → β) :
    ∀ l : List α, (∀ x ∈ l, f x = some (g x)) → l.filterMap f = l.map g := by
  intro l h
  induction l with
  | nil => simp
  | cons a rest ih =>
    rw [List.filterMap_cons, h a (List.mem_cons_self a rest)]
    simp only [List.map_cons]
    rw [ih (fun x hx => h x (List.mem_cons_of_mem a hx))]

/-- At or after the first data year the forward-fill always finds a close. -/
lemma lastCloseUpToYear_isSome (p : PricePoint) (rest : List PricePoint) (y : Int)
    (hy : p.date.year ≤ y) :
    lastCloseUpToYear (p :: rest) y = some (ffcloseYear (p :: rest) y) := by
  have hmem : p ∈ (p :: rest).filter (fun q => decide (q.date.year ≤ y)) := by
    rw [List.mem_filter]
    exact ⟨List.mem_cons_self _ _, by simpa using hy⟩
  have hne : (p :: rest).filter (fun q => decide (q.date.year ≤ y)) ≠ [] :=
    List.ne_nil_of_mem hmem
  cases hg : ((p :: rest).filter (fun q => decide (q.date.year ≤ y))).getLast? with
  | none => exact absurd (List.getLast?_eq_none_iff.mp hg) hne
  | some q =>
    unfold ffcloseYear lastCloseUpToYear
    rw [hg]
    rfl

/-- The resampled close series of a nonempty price series is one entry per
calendar year of the spanned range. -/
lemma yearlyCloses_eq_map (p : PricePoint) (rest : List PricePoint) :
    yearlyCloses (p :: rest) =
      (List.range ((lastYear (p :: rest) - firstYear (p :: rest)).toNat + 1)).map
        (fun (i : Nat) => (firstYear (p :: rest) + (i : Int),
          ffcloseYear (p :: rest) (firstYear (p :: rest) + (i : Int)))) := by
  rw [show yearlyCloses (p :: rest) =
      (List.range ((lastYear (p :: rest) - firstYear (p :: rest)).toNat + 1)).filterMap
        (fun (i : Nat) =>
          (lastCloseUpToYear (p :: rest) (firstYear (p :: rest) + (i : Int))).map
            (fun c => (firstYear (p :: rest) + (i : Int), c))) from rfl]
  apply filterMap_eq_map_of_some
  intro i hi
  have hy : p.date.year ≤ firstYear (p :: rest) + (i : Int) := by
    have h1 : firstYear (p :: rest) = p.date.year := rfl
    rw [h1]
    exact le_add_of_nonneg_right (by positivity)
  rw [lastCloseUpToYear_isSome p rest _ hy]
  rfl

/-- `pct_change().dropna()` shortens a series by exactly one entry. -/
lemma retSeries_length {α : Type} (l : List (α × ℚ)) :
    (retSeries l).length = l.length - 1 := by
  unfold retSeries
  rw [List.length_zipWith, List.length_tail]
  omega

/-- Entry `i` of `pct_change().dropna()` pairs label `i+1` with the ratio
of the closes at `i+1` and `i`, minus one. -/
lemma retSeries_getElem? {α : Type} (l : List (α × ℚ)) (i : Nat) (a b : α × ℚ)
    (ha : l[i]? = some a) (hb : l[i + 1]? = some b) :
    (retSeries l)[i]? = some (b.1, b.2 / a.2 - 1) := by
  unfold retSeries
  rw [List.getElem?_zipWith]
  rw [ha, List.getElem?_tail, hb]

/-- Shape of the Yearly Return Series of a nonempty price series: one
return per spanned year past the first, each the ratio of consecutive
forward-filled year-end closes minus one. -/
lemma yearlyReturns_spec (p : PricePoint) (rest : List PricePoint) :
    (yearlyReturns (p :: rest)).length =
      (lastYear (p :: rest) - firstYear (p :: rest)).toNat ∧
    ∀ i : Nat, i < (lastYear (p :: rest) - firstYear (p :: rest)).toNat →
      (yearlyReturns (p :: rest))[i]? =
        some (firstYear (p :: rest) + (i : Int) + 1,
          ffcloseYear (p :: rest) (firstYear (p :: rest) + (i : Int) + 1) /
            ffcloseYear (p :: rest) (firstYear (p :: rest) + (i : Int)) - 1) := by
  have hlen : (yearlyCloses (p :: rest)).length =
      (lastYear (p :: rest) - firstYear (p :: rest)).toNat + 1 := by
    rw [yearlyCloses_eq_map]
    simp
  constructor
  · rw [yearlyReturns, retSeries_length, hlen]
    omega
  · intro i hi
    have ha : (yearlyCloses (p :: rest))[i]? =
        some (firstYear (p :: rest) + (i : Int),
          ffcloseYear (p :: rest) (firstYear (p :: rest) + (i : Int))) := by
      rw [yearlyCloses_eq_map, List.getElem?_map, List.getElem?_range (by omega)]
      rfl
    have hb : (yearlyCloses (p :: rest))[i + 1]? =
        some (firstYear (p :: rest) + ((i + 1 : Nat) : Int),
          ffcloseYear (p :: rest) (firstYear (p :: rest) + ((i + 1 : Nat) : Int))) := by
      rw [yearlyCloses_eq_map, List.getElem?_map, List.getElem?_range (by omega)]
      rfl
    rw [yearlyReturns, retSeries_getElem? _ i _ _ ha hb]
    have hcast : firstYear (p :: rest) + ((i + 1 : Nat) : Int) =
        firstYear (p :: rest) + (i : Int) + 1 := by
      push_cast
      ring
    rw [hcast]

/-- `consecFrom` follows from the positional year formula. -/
lemma consecFrom_of_getElem? (l : List (Int × ℚ)) : ∀ (y0 : Int),
    (∀ (i : Nat) (e : Int × ℚ), l[i]? = some e → e.1 = y0 + i) → consecFrom y0 l := by
  induction l with
  | nil =>
    intro y0 h
    trivial
  | cons a rest ih =>
    intro y0 h
    refine ⟨?_, ih (y0 + 1) ?_⟩
    · have := h 0 a (by simp)
      simpa using this
    · intro i e he
      have := h (i + 1) e (by simpa using he)
      push_cast at this ⊢
      omega

/-- Every Yearly Return Series produced by the pipeline has one entry per
consecutive calendar year — the hypothesis of C2 and C3. -/
lemma consecFrom_yearlyReturns (prices : List PricePoint) :
    consecFrom (firstYear prices + 1) (yearlyReturns prices) := by
  cases prices with
  | nil => trivial
  | cons p rest =>
    apply consecFrom_of_getElem?
    intro i e he
    have hlen : i < (yearlyReturns (p :: rest)).length := by
      by_contra hcon
      rw [List.getElem?_eq_none (by omega)] at he
      exact Option.noConfusion he
    rw [(yearlyReturns_spec p rest).1] at hlen
    rw [(yearlyReturns_spec p rest).2 i hlen] at he
    have h1 : e.1 = firstYear (p :: rest) + (i : Int) + 1 :=
      (congrArg Prod.fst (Option.some.inj he)).symm
    omega

end NiftyDash

namespace NiftyDash

/-- C8 (amended): for every sorted, positive-close, nonempty Price Series,
the Yearly Return Series has one entry per calendar year *spanned* by the
data past the first (`lastYear − firstYear` entries — not "distinct years
in the data minus one", which fails when a year has no data), and entry `i`
is the forward-filled year-end close of year `firstYear + i + 1` divided by
that of year `firstYear + i`, minus one. -/
theorem C8_span_amended (prices : List PricePoint) (hs : sortedByDate prices)
    (hpos : ∀ q ∈ prices, 0 < q.close) (hne : prices ≠ []) :
    (yearlyReturns prices).length = (lastYear prices - firstYear prices).toNat ∧
    ∀ i : Nat, i < (lastYear prices - firstYear prices).toNat →
      (yearlyReturns prices)[i]? =
        some (firstYear prices + (i : Int) + 1,
          ffcloseYear prices (firstYear prices + (i : Int) + 1) /
            ffcloseYear prices (firstYear prices + (i : Int)) - 1) := by
  obtain ⟨p, rest, rfl⟩ := List.exists_cons_of_ne_nil hne
  exact yearlyReturns_spec p rest

/-- Witness for C8 (amended) on the gap-year series. -/
theorem C8_span_amended_witness :
    (yearlyReturns gapPrices).length = (lastYear gapPrices - firstYear gapPrices).toNat ∧
    ∀ i : Nat, i < (lastYear gapPrices - firstYear gapPrices).toNat →
      (yearlyReturns gapPrices)[i]? =
        some (firstYear gapPrices + (i : Int) + 1,
          ffcloseYear gapPrices (firstYear gapPrices + (i : Int) + 1) /
            ffcloseYear gapPrices (firstYear gapPrices + (i : Int)) - 1) :=
  C8_span_amended gapPrices (by simp [sortedByDate, gapPrices, PDate.le])
    (by
      intro q hq
      rcases List.mem_cons.mp hq with h | h
      · subst h
        norm_num
      · rcases List.mem_cons.mp h with h2 | h2
        · subst h2
          norm_num
        · simp at h2)
    (by simp [gapPrices])

end NiftyDash
